import Mathlib

/-!
Shallow embedding of the `BufBytes` buffered byte iterator (src/src/lib.rs).

Bytes are modelled as `Nat`, I/O errors as `String`.  A `Source` models the
Rust `Read` trait: `read s n` asks the source (in state `s`) to fill a buffer
of length `n` and returns either the bytes written (a list of length ≤ n, the
`Read` contract) or an I/O error, together with the advanced source state.

The Rust struct stores two raw pointers into its buffer: `buf_ptr` (next
unread byte) and `buf_ptr_end` (last valid byte, `&mut buf[buf_len-1]`).
Since the `Vec` is never reallocated, pointer arithmetic and comparison are
faithfully represented by the corresponding indices into the buffer list:
`buf_ptr` is the index of the next unread byte and `buf_ptr_end` the index of
the last valid byte (inclusive).
-/

/-- Result of one read call: bytes written, or an I/O error. -/
abbrev ReadResult : Type := Except String (List Nat)

/-- A stateful byte source (the Rust `Read` collaborator).  `read_le` is the
`Read` trait contract: a successful read returns at most the requested
number of bytes. -/
structure Source (σ : Type) where
  read : σ → Nat → ReadResult × σ
  read_le : ∀ s n data s2, read s n = (Except.ok data, s2) → data.length ≤ n

/-- The iterator state (Rust struct `BufBytes`), with the two pointers
replaced by indices into `buf`. -/
structure BufBytes (σ : Type) where
  base : σ
  buf : List Nat
  buf_ptr : Nat
  buf_ptr_end : Nat
  error : Option String
  deriving DecidableEq

namespace BufBytes

/-- Model of `BufBytes::with_capacity`: allocate a zeroed buffer of `size` bytes, do
one fill; propagate a read error, reject a 0-byte first fill, otherwise set
`buf_ptr` to the buffer start and `buf_ptr_end` to index `buf_len - 1`. -/
def with_capacity (src : Source σ) (base : σ) (size : Nat) :
    Except String (BufBytes σ) :=
  let buf : List Nat := List.replicate size 0
  match src.read base size with
  | (Except.error e, _) => Except.error e
  | (Except.ok data, base2) =>
    if data.length = 0 then Except.error "0 size file"
    else Except.ok
      { base := base2
        buf := data ++ buf.drop data.length
        buf_ptr := 0
        buf_ptr_end := data.length - 1
        error := none }

/-- Model of `BufBytes::new`: `with_capacity` with the default buffer size 8192. -/
def new (src : Source σ) (base : σ) : Except String (BufBytes σ) :=
  with_capacity src base 8192

/-- Model of `BufBytes::refill_buffer`: read into the whole buffer again; `Ok(0)`
yields `false`, `Ok(n)` resets both pointers and yields `true`, `Err(e)`
stores the error and yields `false`. -/
def refill_buffer (src : Source σ) (b : BufBytes σ) : Bool × BufBytes σ :=
  match src.read b.base b.buf.length with
  | (Except.ok data, base2) =>
    if data.length = 0 then
      (false, { b with base := base2 })
    else
      (true, { b with
                base := base2
                buf := data ++ b.buf.drop data.length
                buf_ptr := 0
                buf_ptr_end := data.length - 1 })
  | (Except.error e, base2) =>
    (false, { b with base := base2, error := some e })

/-- Model of `BufBytes::get_err`: read-only access to the stored error. -/
def get_err (b : BufBytes σ) : Option String :=
  b.error

/-- Model of `BufBytes::try_block`: run the closure with mutable access, then return
the stored error if one is set, else the closure's result. -/
def try_block (f : BufBytes σ → T × BufBytes σ) (b : BufBytes σ) :
    Except String T × BufBytes σ :=
  let p := f b
  match get_err p.2 with
  | some e => (Except.error e, p.2)
  | none => (Except.ok p.1, p.2)

/-- Model of `Iterator::next` for `BufBytes`: if `buf_ptr` has passed `buf_ptr_end`,
attempt a refill, returning `None` if it fails; otherwise read the byte at
`buf_ptr` and advance it by one. -/
def next (src : Source σ) (b : BufBytes σ) : Option Nat × BufBytes σ :=
  if b.buf_ptr_end < b.buf_ptr then
    match refill_buffer src b with
    | (false, b2) => (none, b2)
    | (true, b2) =>
      (some (b2.buf.getD b2.buf_ptr 0), { b2 with buf_ptr := b2.buf_ptr + 1 })
  else
    (some (b.buf.getD b.buf_ptr 0), { b with buf_ptr := b.buf_ptr + 1 })

/-- Drive `next` repeatedly (fuel-bounded), collecting the yielded bytes and
returning the final state; stops at the first call that yields no item. -/
def drain (src : Source σ) : Nat → BufBytes σ → List Nat × BufBytes σ
  | 0, b => ([], b)
  | Nat.succ fuel, b =>
    match next src b with
    | (some x, b2) =>
      let p := drain src fuel b2
      (x :: p.1, p.2)
    | (none, b2) => ([], b2)

/-- The closure used by the repository's `try_block` tests: `b.count()`,
counting all remaining bytes (fuel-bounded). -/
def countFn (src : Source σ) (fuel : Nat) (b : BufBytes σ) :
    Nat × BufBytes σ :=
  let p := drain src fuel b
  (p.1.length, p.2)

end BufBytes

/-- An in-memory source holding a list of bytes: each read hands out the
next `min n remaining` bytes (how a file behaves). -/
def listSource : Source (List Nat) where
  read s n := (Except.ok (s.take n), s.drop n)
  read_le := by
    intro s n data s2 h
    cases h
    simp [List.length_take_le]

/-- The test fixture `ErrorFile` (src/src/lib.rs tests): its read first adds
the requested length to a running cursor, then fails once the cursor exceeds
`error_bytes`, otherwise fills the whole buffer with zeros. -/
def errFileSource (error_bytes : Nat) : Source Nat where
  read cursor n :=
    let cursor2 := cursor + n
    if error_bytes < cursor2 then (Except.error "error", cursor2)
    else (Except.ok (List.replicate n 0), cursor2)
  read_le := by
    intro s n data s2 h
    by_cases hc : error_bytes < s + n <;> simp [hc] at h
    cases h.1
    simp

/-- A scripted source: a list of canned read results, handed out one per
read call (each truncated to the requested length); an exhausted script
reports end-of-data forever. -/
def scriptRead :
    List ReadResult → Nat → ReadResult × List ReadResult
  | [], _ => (Except.ok [], [])
  | (Except.ok data) :: rest, n => (Except.ok (data.take n), rest)
  | (Except.error e) :: rest, _ => (Except.error e, rest)

/-- The scripted source packaged with its `Read`-contract proof. -/
def scriptSource : Source (List ReadResult) where
  read := scriptRead
  read_le := by
    intro s n data s2 h
    match s with
    | [] =>
      simp [scriptRead] at h
      simp [h.1]
    | (Except.ok d) :: rest =>
      simp [scriptRead] at h
      cases h.1
      simp [List.length_take_le]
    | (Except.error e) :: rest =>
      simp [scriptRead] at h

/-- The bytes an iterator over a list-backed source has yet to yield: the
unread valid part of the buffer followed by the unread part of the source. -/
def remaining (b : BufBytes (List Nat)) : List Nat :=
  (b.buf.take (b.buf_ptr_end + 1)).drop b.buf_ptr ++ b.base

/-- Call `next` exactly `k` times (even after calls that produce no item),
recording each call's result. -/
def nexts (src : Source σ) : Nat → BufBytes σ → List (Option Nat) × BufBytes σ
  | 0, b => ([], b)
  | Nat.succ k, b =>
    let p := BufBytes.next src b
    let q := nexts src k p.2
    (p.1 :: q.1, q.2)

/-- A set of source states from which every read reports either zero bytes
written or an I/O error, and stays in the set: a permanently exhausted or
permanently failing source. -/
def DeadFrom (src : Source σ) (S : σ → Prop) : Prop :=
  ∀ s, S s → ∀ n,
    ((src.read s n).1 = Except.ok [] ∨ ∃ e, (src.read s n).1 = Except.error e)
    ∧ S (src.read s n).2

/-- The cursor/valid-length/capacity invariant: `cursor ≤ valid_length` and
`valid_length ≤ capacity`, with `valid_length = buf_ptr_end + 1` and the
capacity being the buffer's length. -/
def BufInv (b : BufBytes σ) : Prop :=
  b.buf_ptr ≤ b.buf_ptr_end + 1 ∧ b.buf_ptr_end < b.buf.length

/-- The 32 ASCII bytes of `"abcdefg\nhijklmn\nopqrstu\nvwxyz00\n"`, the
clean fixture of the repository's tests. -/
def ascii32 : List Nat :=
  [97, 98, 99, 100, 101, 102, 103, 10,
   104, 105, 106, 107, 108, 109, 110, 10,
   111, 112, 113, 114, 115, 116, 117, 10,
   118, 119, 120, 121, 122, 48, 48, 10]

/-- Unfolding `drain` one step when `next` yields a byte. -/
theorem drain_succ_some (src : Source σ) (n : Nat) (b b2 : BufBytes σ) (x : Nat)
    (h : BufBytes.next src b = (some x, b2)) :
    (BufBytes.drain src (n + 1) b).1 = x :: (BufBytes.drain src n b2).1 := by
  simp [BufBytes.drain, h]

/-- Unfolding `drain` one step when `next` yields nothing. -/
theorem drain_succ_none (src : Source σ) (n : Nat) (b b2 : BufBytes σ)
    (h : BufBytes.next src b = (none, b2)) :
    (BufBytes.drain src (n + 1) b).1 = [] := by
  simp [BufBytes.drain, h]

/-- Behavior of `next` over a list-backed source when an unread byte is still in the
buffer: yield it and advance the cursor. -/
theorem next_listSource_mid (b : BufBytes (List Nat))
    (hcur : ¬ b.buf_ptr_end < b.buf_ptr) :
    BufBytes.next listSource b =
      (some (b.buf.getD b.buf_ptr 0), { b with buf_ptr := b.buf_ptr + 1 }) := by
  simp [BufBytes.next, hcur]

/-- Behavior of `next` over an exhausted list-backed source at a spent buffer: the
refill reads zero bytes and no item is produced. -/
theorem next_listSource_refill_nil (b : BufBytes (List Nat))
    (hcur : b.buf_ptr_end < b.buf_ptr) (hb : b.base = []) :
    BufBytes.next listSource b = (none, { b with base := [] }) := by
  simp [BufBytes.next, hcur, BufBytes.refill_buffer, listSource, hb]

/-- Behavior of `next` over a non-empty list-backed source at a spent buffer: the refill
pulls the next chunk and the chunk's first byte is yielded. -/
theorem next_listSource_refill_cons (b : BufBytes (List Nat)) (x : Nat)
    (xs : List Nat) (hcur : b.buf_ptr_end < b.buf_ptr) (hb : b.base = x :: xs)
    (hlen : 1 ≤ b.buf.length) :
    BufBytes.next listSource b =
      (some x,
       ⟨b.base.drop b.buf.length,
        b.base.take b.buf.length ++
          b.buf.drop (b.base.take b.buf.length).length,
        1, (b.base.take b.buf.length).length - 1, b.error⟩) := by
  obtain ⟨L, hL⟩ : ∃ L, b.buf.length = L + 1 := ⟨b.buf.length - 1, by omega⟩
  have hdata : b.base.take b.buf.length = x :: xs.take L := by
    rw [hb, hL]; simp
  have hdne : ¬((b.base.take b.buf.length).length = 0) := by
    rw [hdata]; simp
  simp only [BufBytes.next, hcur, if_true, BufBytes.refill_buffer, listSource,
    hdne, if_false]
  rw [hdata]
  simp [List.getD]

/-- Main replay lemma: over a list-backed source, draining with enough fuel
yields exactly the remaining bytes. -/
theorem drain_listSource (fuel : Nat) :
    ∀ b : BufBytes (List Nat),
      b.buf_ptr_end < b.buf.length →
      b.buf_ptr ≤ b.buf_ptr_end + 1 →
      (remaining b).length < fuel →
      (BufBytes.drain listSource fuel b).1 = remaining b := by
  induction fuel with
  | zero => intro b _ _ h3; omega
  | succ n ih =>
    intro b h1 h2 h3
    by_cases hcur : b.buf_ptr_end < b.buf_ptr
    · -- the cursor has passed the end: `next` attempts a refill
      have hp : b.buf_ptr = b.buf_ptr_end + 1 := by omega
      have htl : (b.buf.take (b.buf_ptr_end + 1)).length = b.buf_ptr_end + 1 := by
        simp [List.length_take]; omega
      have hrem : remaining b = b.base := by
        unfold remaining
        rw [hp, List.drop_eq_nil_of_le (by rw [htl])]
        simp
      match hbase : b.base with
      | [] =>
        rw [drain_succ_none listSource n b _
          (next_listSource_refill_nil b hcur hbase), hrem, hbase]
      | x :: xs =>
        obtain ⟨L, hL⟩ : ∃ L, b.buf.length = L + 1 := ⟨b.buf.length - 1, by omega⟩
        have hlen : 1 ≤ b.buf.length := by omega
        have hnext := next_listSource_refill_cons b x xs hcur hbase hlen
        have htl1 : 1 ≤ (b.base.take b.buf.length).length := by
          rw [hbase, hL]; simp
        have hblen : 1 ≤ b.base.length := by rw [hbase]; simp
        have hrem3 : remaining
            ⟨b.base.drop b.buf.length,
             b.base.take b.buf.length ++
               b.buf.drop (b.base.take b.buf.length).length,
             1, (b.base.take b.buf.length).length - 1, b.error⟩ =
            (b.base.take b.buf.length).drop 1 ++ b.base.drop b.buf.length := by
          unfold remaining
          simp only []
          rw [show (b.base.take b.buf.length).length - 1 + 1 =
            (b.base.take b.buf.length).length by omega]
          rw [List.take_left' rfl]
        have hlen3 : b.base.length < n + 1 := by rw [hrem] at h3; exact h3
        have hfuel : (remaining
            ⟨b.base.drop b.buf.length,
             b.base.take b.buf.length ++
               b.buf.drop (b.base.take b.buf.length).length,
             1, (b.base.take b.buf.length).length - 1, b.error⟩).length < n := by
          rw [hrem3]
          simp only [List.length_append, List.length_drop, List.length_take]
          omega
        have hinv1 : ((⟨b.base.drop b.buf.length,
             b.base.take b.buf.length ++
               b.buf.drop (b.base.take b.buf.length).length,
             1, (b.base.take b.buf.length).length - 1, b.error⟩ :
               BufBytes (List Nat))).buf_ptr_end <
            ((⟨b.base.drop b.buf.length,
             b.base.take b.buf.length ++
               b.buf.drop (b.base.take b.buf.length).length,
             1, (b.base.take b.buf.length).length - 1, b.error⟩ :
               BufBytes (List Nat))).buf.length := by
          simp only [List.length_append, List.length_drop]
          omega
        have hinv2 : ((⟨b.base.drop b.buf.length,
             b.base.take b.buf.length ++
               b.buf.drop (b.base.take b.buf.length).length,
             1, (b.base.take b.buf.length).length - 1, b.error⟩ :
               BufBytes (List Nat))).buf_ptr ≤
            ((⟨b.base.drop b.buf.length,
             b.base.take b.buf.length ++
               b.buf.drop (b.base.take b.buf.length).length,
             1, (b.base.take b.buf.length).length - 1, b.error⟩ :
               BufBytes (List Nat))).buf_ptr_end + 1 := by
          simp only []
          omega
        rw [drain_succ_some listSource n b _ x hnext, ih _ hinv1 hinv2 hfuel,
          hrem3, hrem, hbase, hL]
        simp [List.take_append_drop]
    · -- a byte is still available at the cursor: `next` yields it directly
      have hplt : b.buf_ptr < b.buf.length := by omega
      have hnext := next_listSource_mid b hcur
      have hrem2 : remaining b =
          b.buf.getD b.buf_ptr 0 ::
            remaining { b with buf_ptr := b.buf_ptr + 1 } := by
        unfold remaining
        simp only []
        have hlt : b.buf_ptr < (b.buf.take (b.buf_ptr_end + 1)).length := by
          simp [List.length_take]; omega
        have hgt : (b.buf.take (b.buf_ptr_end + 1)).getD b.buf_ptr 0
            = b.buf.getD b.buf_ptr 0 := by
          rw [List.getD_eq_getElem _ 0 hlt, List.getD_eq_getElem _ 0 hplt]
          exact List.getElem_take ..
        rw [List.drop_eq_getElem_cons hlt, ← List.getD_eq_getElem _ 0 hlt, hgt]
        simp
      have hfuel : (remaining { b with buf_ptr := b.buf_ptr + 1 }).length < n := by
        have hcg := congrArg List.length hrem2
        simp only [List.length_cons] at hcg
        omega
      have hinv1 : ({ b with buf_ptr := b.buf_ptr + 1 } :
            BufBytes (List Nat)).buf_ptr_end <
          ({ b with buf_ptr := b.buf_ptr + 1 } :
            BufBytes (List Nat)).buf.length := by
        simp only []
        omega
      have hinv2 : ({ b with buf_ptr := b.buf_ptr + 1 } :
            BufBytes (List Nat)).buf_ptr ≤
          ({ b with buf_ptr := b.buf_ptr + 1 } :
            BufBytes (List Nat)).buf_ptr_end + 1 := by
        simp only []
        omega
      rw [drain_succ_some listSource n b _ _ hnext, ih _ hinv1 hinv2 hfuel,
        hrem2]

/-- C1: for every source holding bytes `b_0..b_{n-1}` (nonempty, as required
for construction to succeed) and every capacity `c ≥ 1`, building the
iterator with `with_capacity` and consuming it end-to-end via `next` yields
exactly `b_0, ..., b_{n-1}` in order, for every such `c`. -/
theorem spec_C1 (data : List Nat) (c : Nat) (hc : 0 < c) (hd : data ≠ []) :
    ∃ b, BufBytes.with_capacity listSource data c = Except.ok b ∧
      (BufBytes.drain listSource (data.length + 1) b).1 = data := by
  have hdl : 0 < data.length := List.length_pos.mpr hd
  have htl : (data.take c).length = min c data.length := List.length_take ..
  have htl1 : 1 ≤ (data.take c).length := by rw [htl]; omega
  have htlc : (data.take c).length ≤ c := by rw [htl]; omega
  have hne : ¬((data.take c).length = 0) := by omega
  have hstep : BufBytes.with_capacity listSource data c =
      Except.ok ⟨data.drop c,
        data.take c ++ (List.replicate c 0).drop (data.take c).length,
        0, (data.take c).length - 1, none⟩ := by
    simp only [BufBytes.with_capacity, listSource, hne, if_false]
  refine ⟨_, hstep, ?_⟩
  have hrem0 : remaining ⟨data.drop c,
      data.take c ++ (List.replicate c 0).drop (data.take c).length,
      0, (data.take c).length - 1, none⟩ = data := by
    unfold remaining
    simp only []
    rw [show (data.take c).length - 1 + 1 = (data.take c).length by omega]
    rw [List.take_left' rfl]
    simp [List.take_append_drop]
  have h1 : ((⟨data.drop c,
      data.take c ++ (List.replicate c 0).drop (data.take c).length,
      0, (data.take c).length - 1, none⟩ : BufBytes (List Nat))).buf_ptr_end <
      ((⟨data.drop c,
      data.take c ++ (List.replicate c 0).drop (data.take c).length,
      0, (data.take c).length - 1, none⟩ : BufBytes (List Nat))).buf.length := by
    simp only [List.length_append, List.length_drop, List.length_replicate]
    omega
  have h2 : ((⟨data.drop c,
      data.take c ++ (List.replicate c 0).drop (data.take c).length,
      0, (data.take c).length - 1, none⟩ : BufBytes (List Nat))).buf_ptr ≤
      ((⟨data.drop c,
      data.take c ++ (List.replicate c 0).drop (data.take c).length,
      0, (data.take c).length - 1, none⟩ : BufBytes (List Nat))).buf_ptr_end
        + 1 := by
    simp only []
    omega
  have hfuel : (remaining ⟨data.drop c,
      data.take c ++ (List.replicate c 0).drop (data.take c).length,
      0, (data.take c).length - 1, none⟩).length < data.length + 1 := by
    rw [hrem0]
    omega
  rw [drain_listSource (data.length + 1) _ h1 h2 hfuel, hrem0]

/-- Witness for C1 at bytes `[10, 20, 30, 40, 50]` and capacity 2 (refills
cross the chunk boundary). -/
theorem spec_C1_witness :
    ∃ b, BufBytes.with_capacity listSource [10, 20, 30, 40, 50] 2 =
        Except.ok b ∧
      (BufBytes.drain listSource (([10, 20, 30, 40, 50] : List Nat).length + 1)
        b).1 = [10, 20, 30, 40, 50] :=
  spec_C1 [10, 20, 30, 40, 50] 2 (by decide) (by decide)

/-- One `next` call on a spent buffer over a permanently dead source: no
item is produced, the source stays dead, and the cursor stays past the end
(so the situation repeats). -/
theorem next_dead (src : Source σ) (S : σ → Prop) (hS : DeadFrom src S)
    (b : BufBytes σ) (hb : S b.base) (hcur : b.buf_ptr_end < b.buf_ptr) :
    (BufBytes.next src b).1 = none ∧ S (BufBytes.next src b).2.base ∧
      (BufBytes.next src b).2.buf_ptr_end < (BufBytes.next src b).2.buf_ptr := by
  obtain ⟨hres, hS2⟩ := hS b.base hb b.buf.length
  rcases hread : src.read b.base b.buf.length with ⟨r, s2⟩
  rw [hread] at hres hS2
  rcases hres with h0 | ⟨e, he⟩
  · simp only [] at h0
    subst h0
    simp [BufBytes.next, hcur, BufBytes.refill_buffer, hread]
    exact hS2
  · simp only [] at he
    subst he
    simp [BufBytes.next, hcur, BufBytes.refill_buffer, hread]
    exact hS2

/-- C2 counterexample: over a scripted source whose reads return one byte,
then zero bytes, then one more byte, with capacity 1, the iterator yields
`5`, then produces no item (the refill reported 0 bytes, i.e. exhaustion) —
and the very next call re-reads the source and yields `7`.  So after a
refill has returned 0 bytes, the iterator is not terminal and the source is
re-fetched. -/
theorem spec_C2_counterexample :
    BufBytes.with_capacity scriptSource
        [Except.ok [5], Except.ok [], Except.ok [7]] 1 =
      Except.ok ⟨[Except.ok [], Except.ok [7]], [5], 0, 0, none⟩ ∧
    BufBytes.drain scriptSource 2
        ⟨[Except.ok [], Except.ok [7]], [5], 0, 0, none⟩ =
      ([5], ⟨[Except.ok [7]], [5], 1, 0, none⟩) ∧
    (BufBytes.next scriptSource ⟨[Except.ok [7]], [5], 1, 0, none⟩).1 =
      some 7 :=
  ⟨rfl, rfl, rfl⟩

/-- C2 (amended): after a refill attempt has returned 0 bytes or an error,
the triggering `next` call produces no item, but the iterator is not in a
terminal state: every subsequent `next` call re-attempts the refill by
reading the source again.  No further item is produced only as long as the
source keeps reporting 0 bytes or an error on those re-reads (a source that
returns fresh data on a later read resumes yielding, as the counterexample
shows). -/
theorem spec_C2 (src : Source σ) (S : σ → Prop) (hS : DeadFrom src S) :
    ∀ (k : Nat) (b : BufBytes σ), S b.base → b.buf_ptr_end < b.buf_ptr →
      (nexts src k b).1 = List.replicate k none := by
  intro k
  induction k with
  | zero => intro b _ _; rfl
  | succ n ih =>
    intro b hb hcur
    obtain ⟨h1, h2, h3⟩ := next_dead src S hS b hb hcur
    simp only [nexts, List.replicate_succ]
    rw [h1, ih _ h2 h3]

/-- Witness for C2 (amended): a spent iterator over the exhausted in-memory
source never yields again. -/
theorem spec_C2_witness :
    (nexts listSource 3 ⟨[], [9], 1, 0, none⟩).1 = List.replicate 3 none :=
  spec_C2 listSource (fun s => s = [])
    (by
      intro s hs n
      subst hs
      simp [listSource])
    3 ⟨[], [9], 1, 0, none⟩ rfl (by decide)

/-- C3: when a refill attempt during iteration reports an I/O error, the
error is stored and queryable afterward via `get_err`, and the `next` call
that triggered the refill produces no item — the error does not flow through
the per-item interface. -/
theorem spec_C3 (src : Source σ) (b : BufBytes σ) (e : String)
    (hcur : b.buf_ptr_end < b.buf_ptr)
    (herr : (src.read b.base b.buf.length).1 = Except.error e) :
    (BufBytes.next src b).1 = none ∧
      BufBytes.get_err (BufBytes.next src b).2 = some e := by
  rcases hread : src.read b.base b.buf.length with ⟨r, s2⟩
  rw [hread] at herr
  simp only [] at herr
  subst herr
  simp [BufBytes.next, hcur, BufBytes.refill_buffer, hread, BufBytes.get_err]

/-- Witness for C3: the `ErrorFile` fixture past its threshold. -/
theorem spec_C3_witness :
    (BufBytes.next (errFileSource 17)
        ⟨16, List.replicate 8 0, 8, 7, none⟩).1 = none ∧
      BufBytes.get_err
        (BufBytes.next (errFileSource 17)
          ⟨16, List.replicate 8 0, 8, 7, none⟩).2 = some "error" :=
  spec_C3 (errFileSource 17) ⟨16, List.replicate 8 0, 8, 7, none⟩ "error"
    (by decide) rfl

/-- C6: if the first fill succeeds but writes zero bytes, construction via
`with_capacity` (and via `new`, which delegates to it with size 8192) fails
with the "empty source" error and produces no iterator. -/
theorem spec_C6 (src : Source σ) (s : σ) :
    (∀ size, (src.read s size).1 = Except.ok [] →
      BufBytes.with_capacity src s size = Except.error "0 size file") ∧
    ((src.read s 8192).1 = Except.ok [] →
      BufBytes.new src s = Except.error "0 size file") := by
  have hmain : ∀ size, (src.read s size).1 = Except.ok [] →
      BufBytes.with_capacity src s size = Except.error "0 size file" := by
    intro size h
    rcases hread : src.read s size with ⟨r, s2⟩
    rw [hread] at h
    simp only [] at h
    subst h
    simp [BufBytes.with_capacity, hread]
  exact ⟨hmain, fun h => hmain 8192 h⟩

/-- Witness for C6: an empty in-memory source is rejected. -/
theorem spec_C6_witness :
    BufBytes.with_capacity listSource [] 8 = Except.error "0 size file" :=
  (spec_C6 listSource []).1 8 rfl

/-- C8: if the first fill performed during construction reports an I/O
error, construction fails and that very error is the constructor's failure
result. -/
theorem spec_C8 (src : Source σ) (s : σ) (size : Nat) (e : String)
    (h : (src.read s size).1 = Except.error e) :
    BufBytes.with_capacity src s size = Except.error e := by
  rcases hread : src.read s size with ⟨r, s2⟩
  rw [hread] at h
  simp only [] at h
  subst h
  simp [BufBytes.with_capacity, hread]

/-- Witness for C8: a source that errors on its first read. -/
theorem spec_C8_witness :
    BufBytes.with_capacity scriptSource [Except.error "boom"] 4 =
      Except.error "boom" :=
  spec_C8 scriptSource [Except.error "boom"] 4 "boom" rfl

/-- One `next` call either leaves the stored error exactly as it was, or
(when the triggered refill fails) overwrites it with the read's error. -/
theorem next_error_cases (src : Source σ) (b : BufBytes σ) :
    (BufBytes.next src b).2.error = b.error ∨
    ∃ e2, (src.read b.base b.buf.length).1 = Except.error e2 ∧
      (BufBytes.next src b).2.error = some e2 := by
  by_cases hcur : b.buf_ptr_end < b.buf_ptr
  · rcases hread : src.read b.base b.buf.length with ⟨r, s2⟩
    match r with
    | Except.ok data =>
      by_cases hz : data.length = 0 <;>
        simp [BufBytes.next, hcur, BufBytes.refill_buffer, hread, hz]
    | Except.error e =>
      right
      refine ⟨e, by simp [hread], ?_⟩
      simp [BufBytes.next, hcur, BufBytes.refill_buffer, hread]
  · left
    simp [BufBytes.next, hcur]

/-- If the error field is set, it is still set after a `next` call. -/
theorem next_error_isSome (src : Source σ) (b : BufBytes σ)
    (h : b.error.isSome) : (BufBytes.next src b).2.error.isSome := by
  rcases next_error_cases src b with hsame | ⟨e2, _, hset⟩
  · rw [hsame]; exact h
  · rw [hset]; rfl

/-- If the error field is set, it is still set after any number of `next`
calls driven by `drain`. -/
theorem drain_error_isSome (src : Source σ) :
    ∀ (fuel : Nat) (b : BufBytes σ), b.error.isSome →
      ((BufBytes.drain src fuel b).2).error.isSome := by
  intro fuel
  induction fuel with
  | zero => intro b h; exact h
  | succ n ih =>
    intro b h
    rcases hnext : BufBytes.next src b with ⟨o, b2⟩
    have h2 : b2.error.isSome := by
      have := next_error_isSome src b h
      rw [hnext] at this
      exact this
    match o with
    | some x => simpa [BufBytes.drain, hnext] using ih b2 h2
    | none => simpa [BufBytes.drain, hnext] using h2

/-- C10: once the error field holds an error, no operation clears it: after
any `next` call it still holds an error — the same one unless that call's
refill failed, in which case it holds that refill's error — and after any
number of `next` calls it is still set. -/
theorem spec_C10 (src : Source σ) (b : BufBytes σ) (e : String)
    (h : b.error = some e) :
    (∃ e2, (BufBytes.next src b).2.error = some e2 ∧
      (e2 = e ∨ (src.read b.base b.buf.length).1 = Except.error e2)) ∧
    (∀ fuel, ((BufBytes.drain src fuel b).2).error.isSome) := by
  constructor
  · rcases next_error_cases src b with hsame | ⟨e2, hr, hset⟩
    · exact ⟨e, by rw [hsame, h], Or.inl rfl⟩
    · exact ⟨e2, hset, Or.inr hr⟩
  · intro fuel
    exact drain_error_isSome src fuel b (by rw [h]; rfl)

/-- Witness for C10: an iterator with a stored error over an exhausted
in-memory source. -/
theorem spec_C10_witness :
    (∃ e2, (BufBytes.next listSource
        ⟨[], [9], 1, 0, some "old"⟩).2.error = some e2 ∧
      (e2 = "old" ∨
        (listSource.read (⟨[], [9], 1, 0, some "old"⟩ :
          BufBytes (List Nat)).base
          (⟨[], [9], 1, 0, some "old"⟩ :
            BufBytes (List Nat)).buf.length).1 = Except.error e2)) ∧
    (∀ fuel, ((BufBytes.drain listSource fuel
        ⟨[], [9], 1, 0, some "old"⟩).2).error.isSome) :=
  spec_C10 listSource ⟨[], [9], 1, 0, some "old"⟩ "old" rfl

/-- C9: `try_block`'s failure decision depends only on whether the error
field is set after the closure returns: if it was already set before the
call, a counting pass through `try_block` returns a failure even though the
pass itself need not hit any new error. -/
theorem spec_C9 (src : Source σ) (fuel : Nat) (b : BufBytes σ)
    (h : b.error.isSome) :
    ∃ e, (BufBytes.try_block (BufBytes.countFn src fuel) b).1 =
      Except.error e := by
  have hd := drain_error_isSome src fuel b h
  obtain ⟨e, he⟩ := Option.isSome_iff_exists.mp hd
  refine ⟨e, ?_⟩
  simp [BufBytes.try_block, BufBytes.countFn, BufBytes.get_err, he]

/-- Witness for C9: a pre-set error and a clean (error-free) counting pass
over an exhausted in-memory source. -/
theorem spec_C9_witness :
    ∃ e, (BufBytes.try_block (BufBytes.countFn listSource 2)
      ⟨[], [9], 1, 0, some "boom"⟩).1 = Except.error e :=
  spec_C9 listSource 2 ⟨[], [9], 1, 0, some "boom"⟩ rfl

/-- C4: `try_block` first runs the closure with mutable access, then checks
the stored error: if set it returns that error as a failure, discarding the
closure's result; if unset it returns the closure's result as a success.
Counting all bytes of the clean 32-byte source with capacity 8 through it
succeeds with 32; the same pass over the source failing past cumulative
offset 17 returns a failure. -/
theorem spec_C4 :
    (∀ (σ T : Type) (f : BufBytes σ → T × BufBytes σ) (b : BufBytes σ)
        (e : String), BufBytes.get_err (f b).2 = some e →
        BufBytes.try_block f b = (Except.error e, (f b).2)) ∧
    (∀ (σ T : Type) (f : BufBytes σ → T × BufBytes σ) (b : BufBytes σ),
        BufBytes.get_err (f b).2 = none →
        BufBytes.try_block f b = (Except.ok (f b).1, (f b).2)) ∧
    (∃ b, BufBytes.with_capacity listSource ascii32 8 = Except.ok b ∧
      (BufBytes.try_block (BufBytes.countFn listSource 40) b).1 =
        Except.ok 32) ∧
    (∃ b, BufBytes.with_capacity (errFileSource 17) 0 8 = Except.ok b ∧
      (BufBytes.try_block (BufBytes.countFn (errFileSource 17) 40) b).1 =
        Except.error "error") := by
  refine ⟨?_, ?_, ⟨_, rfl, ?_⟩, ⟨_, rfl, ?_⟩⟩
  · intro σ T f b e h
    simp [BufBytes.try_block, h]
  · intro σ T f b h
    simp [BufBytes.try_block, h]
  · rfl
  · rfl

/-- Witness for C4: a closure returning its input on an iterator whose
error field is set. -/
theorem spec_C4_witness :
    BufBytes.try_block (fun b => ((0 : Nat), b))
        (⟨[], [9], 1, 0, some "x"⟩ : BufBytes (List Nat)) =
      (Except.error "x", (⟨[], [9], 1, 0, some "x"⟩ : BufBytes (List Nat))) :=
  spec_C4.1 (List Nat) Nat (fun b => (0, b)) ⟨[], [9], 1, 0, some "x"⟩ "x" rfl

/-- C7: with capacity 8 over the source that satisfies reads while the
cumulative requested length is at most 17 and fails thereafter, iteration
yields exactly the 16 successfully read bytes (all zeros — no garbage) and
then produces no item. -/
theorem spec_C7 :
    BufBytes.with_capacity (errFileSource 17) 0 8 =
      Except.ok ⟨8, List.replicate 8 0, 0, 7, none⟩ ∧
    (BufBytes.drain (errFileSource 17) 40
        ⟨8, List.replicate 8 0, 0, 7, none⟩).1 = List.replicate 16 0 ∧
    (BufBytes.next (errFileSource 17)
      (BufBytes.drain (errFileSource 17) 40
        ⟨8, List.replicate 8 0, 0, 7, none⟩).2).1 = none :=
  ⟨rfl, by decide, by decide⟩

/-- C5: `with_capacity` establishes the cursor/valid-length/capacity
invariant (with the buffer's length equal to the requested capacity),
`next` preserves both, and a yielded byte always comes from an index
strictly below the valid length. -/
theorem spec_C5 (src : Source σ) :
    (∀ s size b, BufBytes.with_capacity src s size = Except.ok b →
      BufInv b ∧ b.buf.length = size) ∧
    (∀ b, BufInv b → BufInv (BufBytes.next src b).2 ∧
      (BufBytes.next src b).2.buf.length = b.buf.length) ∧
    (∀ b x b2, BufBytes.next src b = (some x, b2) →
      1 ≤ b2.buf_ptr ∧ b2.buf_ptr - 1 < b2.buf_ptr_end + 1 ∧
      x = b2.buf.getD (b2.buf_ptr - 1) 0) := by
  refine ⟨?_, ?_, ?_⟩
  · intro s size b h
    rcases hread : src.read s size with ⟨r, s2⟩
    match r with
    | Except.error e => simp [BufBytes.with_capacity, hread] at h
    | Except.ok data =>
      have hle : data.length ≤ size := src.read_le s size data s2 hread
      by_cases hz : data.length = 0
      · simp [BufBytes.with_capacity, hread, hz] at h
      · simp only [BufBytes.with_capacity, hread, hz, if_false] at h
        cases h
        have hlen : (data ++ (List.replicate size 0).drop data.length).length
            = size := by
          simp only [List.length_append, List.length_drop,
            List.length_replicate]
          omega
        refine ⟨⟨Nat.zero_le _, ?_⟩, hlen⟩
        show data.length - 1 <
          (data ++ (List.replicate size 0).drop data.length).length
        rw [hlen]
        omega
  · intro b hinv
    obtain ⟨hi1, hi2⟩ := hinv
    by_cases hcur : b.buf_ptr_end < b.buf_ptr
    · rcases hread : src.read b.base b.buf.length with ⟨r, s2⟩
      match r with
      | Except.error e =>
        simp only [BufBytes.next, hcur, if_true, BufBytes.refill_buffer, hread]
        exact ⟨⟨hi1, hi2⟩, trivial⟩
      | Except.ok data =>
        have hle : data.length ≤ b.buf.length :=
          src.read_le b.base b.buf.length data s2 hread
        by_cases hz : data.length = 0
        · simp only [BufBytes.next, hcur, if_true, BufBytes.refill_buffer,
            hread, hz, if_true]
          exact ⟨⟨hi1, hi2⟩, trivial⟩
        · simp only [BufBytes.next, hcur, if_true, BufBytes.refill_buffer,
            hread, hz, if_false]
          have hlen : (data ++ b.buf.drop data.length).length
              = b.buf.length := by
            simp only [List.length_append, List.length_drop]
            omega
          refine ⟨⟨?_, ?_⟩, hlen⟩
          · show 0 + 1 ≤ data.length - 1 + 1
            omega
          · show data.length - 1 < (data ++ b.buf.drop data.length).length
            rw [hlen]
            omega
    · simp only [BufBytes.next, hcur, if_false]
      refine ⟨⟨?_, hi2⟩, trivial⟩
      show b.buf_ptr + 1 ≤ b.buf_ptr_end + 1
      omega
  · intro b x b2 h
    by_cases hcur : b.buf_ptr_end < b.buf_ptr
    · rcases hread : src.read b.base b.buf.length with ⟨r, s2⟩
      match r with
      | Except.error e =>
        simp [BufBytes.next, hcur, BufBytes.refill_buffer, hread] at h
      | Except.ok data =>
        by_cases hz : data.length = 0
        · simp [BufBytes.next, hcur, BufBytes.refill_buffer, hread, hz] at h
        · simp only [BufBytes.next, hcur, if_true, BufBytes.refill_buffer,
            hread, hz, if_false] at h
          injection h with hx hb
          injection hx with hx2
          subst hb
          refine ⟨Nat.le_refl 1, ?_, hx2.symm⟩
          show 0 + 1 - 1 < data.length - 1 + 1
          omega
    · simp only [BufBytes.next, hcur, if_false] at h
      injection h with hx hb
      injection hx with hx2
      subst hb
      refine ⟨Nat.le_add_left 1 _, ?_, hx2.symm⟩
      show b.buf_ptr + 1 - 1 < b.buf_ptr_end + 1
      omega

/-- Witness for C5: the invariant after constructing over a 3-byte source
with capacity 2. -/
theorem spec_C5_witness :
    BufInv (⟨[3], [1, 2], 0, 1, none⟩ : BufBytes (List Nat)) ∧
      (⟨[3], [1, 2], 0, 1, none⟩ : BufBytes (List Nat)).buf.length = 2 :=
  (spec_C5 listSource).1 [1, 2, 3] 2 ⟨[3], [1, 2], 0, 1, none⟩ rfl
